import Mathlib

/-!
# Route assembly and middleware composition of `blockchain/rpc_reactor.go`

A shallow embedding of `BuildHandler`, `webAssetsHandler`, `alwaysError`,
`jsonHandler` and `AuthHandler`, together with the part of Go's `net/http`
`ServeMux` and `path.Clean` that decides where a request is dispatched.
-/

set_option autoImplicit false

namespace RpcReactor

/-! ## `path.Clean` and `net/http.cleanPath` -/

/-- The backtracking step of `path.Clean` for a `..` element, on the output
buffer held in reverse (last written byte first):
`out.w--; for out.w > dotdot && out.index(out.w) != '/' { out.w-- }`. -/
def backtrack (dotdot : Nat) : List Char → List Char
  | [] => []
  | c :: rest =>
    if dotdot < rest.length ∧ c ≠ '/' then backtrack dotdot rest else rest

/-- Where the main loop of `path.Clean` stands: `scan` at the head of the
`switch`, `copy` inside the inner loop `for ; r < n && path[r] != '/'; r++`
that copies a real path element, `skip` on the second byte of a `..` element
(the `r += 2` of that case, taken one byte at a time). -/
inductive CleanMode where
  | scan
  | copy
  | skip
  deriving DecidableEq, Repr

/-- The main loop of `path.Clean`, one input byte per step. `out` is the
output buffer in reverse; `dotdot` is the index where `..` must stop. -/
def cleanLoop (rooted : Bool) : CleanMode → List Char → List Char → Nat → List Char
  | _, [], out, _ => out
  | .skip, _ :: t, out, dotdot => cleanLoop rooted .scan t out dotdot
  | .copy, c :: t, out, dotdot =>
    if c = '/' then cleanLoop rooted .scan t out dotdot
    else cleanLoop rooted .copy t (c :: out) dotdot
  | .scan, c :: t, out, dotdot =>
    if c = '/' then
      -- empty path element
      cleanLoop rooted .scan t out dotdot
    else if c = '.' ∧ (t = [] ∨ t.head? = some '/') then
      -- . element
      cleanLoop rooted .scan t out dotdot
    else if c = '.' ∧ t.head? = some '.' ∧ (t.tail = [] ∨ t.tail.head? = some '/') then
      -- .. element: remove to last /
      if dotdot < out.length then
        -- can backtrack
        cleanLoop rooted .skip t (backtrack dotdot out) dotdot
      else if ¬ rooted then
        -- cannot backtrack, but not rooted, so append .. element
        let out1 := if 0 < out.length then '/' :: out else out
        let out2 := '.' :: '.' :: out1
        cleanLoop rooted .skip t out2 out2.length
      else
        cleanLoop rooted .skip t out dotdot
    else
      -- real path element: add slash if needed, copy element
      let out1 :=
        if (rooted ∧ out.length ≠ 1) ∨ (¬ rooted ∧ out.length ≠ 0) then '/' :: out else out
      cleanLoop rooted .copy t (c :: out1) dotdot

/-- Go's `path.Clean`. -/
def Clean (path : String) : String :=
  if path = "" then "."
  else
    let rooted : Bool := path.data.head? = some '/'
    let out :=
      if rooted then cleanLoop true .scan path.data.tail ['/'] 1
      else cleanLoop false .scan path.data [] 0
    if out.length = 0 then "." else String.mk out.reverse

/-- The `cleanPath` of `net/http`: the canonical path for `p`, eliminating
`.` and `..` elements and repeated slashes, keeping a trailing slash. -/
def cleanPath (p : String) : String :=
  if p = "" then "/"
  else
    let p := if p.data.head? ≠ some '/' then "/" ++ p else p
    let np := Clean p
    if p.data.getLast? = some '/' ∧ np ≠ "/" then np ++ "/" else np

/-! ## Errors, requests and the observable world -/

/-- Modelled from the spec: the `errors` package of the repository is not part
of this file. An error value carries the text of its root error (the stable
kind by which it is classified) and its own message, which accumulates the
wrapped causes. -/
structure GoError where
  root : String
  msg : String
  deriving DecidableEq, Repr

namespace errors

/-- Modelled from the spec: `errors.New(text)`, a fresh root error. -/
def New (text : String) : GoError := ⟨text, text⟩

/-- Modelled from the spec: `errors.Root(e)`, the root error of `e`. -/
def Root (e : GoError) : GoError := ⟨e.root, e.root⟩

/-- Modelled from the spec: `errors.Wrap(e, msg)` keeps the root of `e` and
prefixes its message. -/
def Wrap (e : GoError) (msg : String) : GoError := ⟨e.root, msg ++ ": " ++ e.msg⟩

/-- Modelled from the spec: `errors.Sub(root, err)` substitutes `root` as the
root of `err`: the result is of the kind of `root` and wraps the detailed
cause `err`. -/
def Sub (root err : GoError) : GoError := ⟨(Root root).root, err.msg ++ ": " ++ root.msg⟩

end errors

/-- `var errNotAuthenticated = errors.New("not authenticated")`. -/
def errNotAuthenticated : GoError := errors.New "not authenticated"

/-- An `*http.Request`, reduced to what routing and the middleware read: the
method, the host, `URL.Path` (the decoded path), `URL.RawPath` (the escaped
path, empty when the default encoding of the path is meant), the raw request
target, the values attached to the request context and the body. A Go string
is a Lean string, one character per byte. -/
structure Request where
  Method : String
  Host : String
  Path : String
  RawPath : String
  RequestURI : String
  Context : List (String × String)
  Body : String
  deriving DecidableEq, Repr

/-- A panic raised while the handler is built. -/
inductive Panic where
  | text (s : String)
  | error (err : GoError)
  deriving DecidableEq, Repr

/-- The values passed to `jsonHandler` in this file: a method value
`bcr.<name>` of the reactor, or the closure `func() error { return err }`
of `alwaysError`. -/
inductive Func where
  | method (name : String)
  | constError (err : GoError)
  deriving DecidableEq, Repr

/-- The handler `httpjson.Handler(f, errorFormatter.Write)`. -/
structure JsonHandler where
  f : Func
  deriving DecidableEq, Repr

/-- A `*metrics.RotatingLatency`, identified by the path it is published under. -/
structure RotatingLatency where
  path : String
  deriving DecidableEq, Repr

/-- What one request makes observable, in order of occurrence. -/
inductive Event where
  | badRequest
  | redirect (url : String) (code : Nat)
  | notFound
  | static (Default : String) (req : Request)
  | timeNow (t : Nat)
  | routeTable (req : Request)
  | httpjson (f : Func) (req : Request) (err : Option GoError)
  | recordSince (l : RotatingLatency) (start : Nat) (elapsed : Nat)
  | logWarn (text : String)
  | logError (text : String) (err : GoError)
  | errorWrite (ctx : List (String × String)) (err : GoError)
  deriving DecidableEq, Repr

/-- The clock and the events so far. -/
structure World where
  clock : Nat
  trace : List Event
  deriving DecidableEq, Repr

/-- Append one event. -/
def World.emit (w : World) (e : Event) : World := { w with trace := w.trace ++ [e] }

/-- The `ServeHTTP` of a handler, as a transformer of the world. -/
abbrev Serve := Request → World → World

/-! ## `net/http.ServeMux`

The mux of the Go releases this file was written for (1.9 and 1.10). Later
releases, up to 1.21, keep the entries in another data structure and dispatch
the same way, on `URL.Path` alone. -/

/-- A handler held or returned by a `ServeMux` whose registered handlers are
of type `H`: a registered one, `http.RedirectHandler(url, code)` or
`http.NotFoundHandler()`. -/
inductive MuxHandler (H : Type) where
  | handler (h : H)
  | RedirectHandler (url : String) (code : Nat)
  | NotFoundHandler
  deriving DecidableEq, Repr

/-- The `muxEntry` of `net/http`. -/
structure muxEntry (H : Type) where
  explicit : Bool
  h : MuxHandler H
  pattern : String
  deriving DecidableEq, Repr

/-- The `ServeMux` of `net/http`; the map `m` is an association list with at
most one entry per key. -/
structure ServeMux (H : Type) where
  m : List (String × muxEntry H)
  hosts : Bool
  deriving DecidableEq, Repr

/-- `http.StatusMovedPermanently`. -/
def StatusMovedPermanently : Nat := 301

/-- `http.NewServeMux()`. -/
def NewServeMux {H : Type} : ServeMux H := ⟨[], false⟩

/-- The map read `m[key]`. -/
def mapGet {H : Type} (m : List (String × muxEntry H)) (key : String) : Option (muxEntry H) :=
  (m.find? (fun kv => kv.1 = key)).map (fun kv => kv.2)

/-- The map write `m[key] = e`. -/
def mapSet {H : Type} (m : List (String × muxEntry H)) (key : String) (e : muxEntry H) :
    List (String × muxEntry H) :=
  m.filter (fun kv => kv.1 ≠ key) ++ [(key, e)]

/-- The read `mux.m[key].explicit`, false when the key is absent. -/
def ServeMux.isExplicit {H : Type} (mux : ServeMux H) (key : String) : Bool :=
  match mapGet mux.m key with
  | some e => e.explicit
  | none => false

/-- The method `(*ServeMux).Handle`: registers the handler for the pattern and
panics if the pattern is empty or already registered; for a pattern `/tree/`
it inserts an implicit permanent redirect for `/tree`. -/
def ServeMux.Handle {H : Type} (mux : ServeMux H) (pattern : String) (handler : H) :
    Except Panic (ServeMux H) :=
  if pattern = "" then .error (.text ("http: invalid pattern " ++ pattern))
  else if mux.isExplicit pattern then
    .error (.text ("http: multiple registrations for " ++ pattern))
  else
    let m1 := mapSet mux.m pattern ⟨true, .handler handler, pattern⟩
    let hosts := mux.hosts || decide (pattern.data.head? ≠ some '/')
    let tree := String.mk pattern.data.dropLast
    if pattern.data.getLast? = some '/' ∧ ¬ (ServeMux.isExplicit ⟨m1, hosts⟩ tree) then
      -- if pattern contains a host name, strip it and use remaining path for redirect
      let path := String.mk (pattern.data.dropWhile (fun c => c ≠ '/'))
      .ok ⟨mapSet m1 tree ⟨false, .RedirectHandler path StatusMovedPermanently, pattern⟩, hosts⟩
    else
      .ok ⟨m1, hosts⟩

/-- The `pathMatch` of `net/http`: does the path match the pattern? -/
def pathMatch (pattern path : String) : Bool :=
  if pattern.length = 0 then false
  else if pattern.data.getLast? ≠ some '/' then pattern = path
  else decide (pattern.length ≤ path.length ∧ path.data.take pattern.length = pattern.data)

/-- One iteration of the loop of `(*ServeMux).match`; the state is `(h, pattern, n)`. -/
def matchStep {H : Type} (path : String) (acc : Option (MuxHandler H) × String × Nat)
    (kv : String × muxEntry H) : Option (MuxHandler H) × String × Nat :=
  if ¬ pathMatch kv.1 path then acc
  else if acc.1.isNone ∨ acc.2.2 < kv.1.length then (some kv.2.h, kv.2.pattern, kv.1.length)
  else acc

/-- The method `(*ServeMux).match`: the most specific (longest) pattern wins. -/
def ServeMux.match {H : Type} (mux : ServeMux H) (path : String) :
    Option (MuxHandler H) × String :=
  let r := mux.m.foldl (matchStep path) (none, "", 0)
  (r.1, r.2.1)

/-- The method `(*ServeMux).handler`, the main implementation of `Handler`. -/
def ServeMux.handler {H : Type} (mux : ServeMux H) (host path : String) : MuxHandler H × String :=
  let r1 : Option (MuxHandler H) × String := if mux.hosts then mux.match (host ++ path) else (none, "")
  let r2 := if r1.1.isNone then mux.match path else r1
  match r2.1 with
  | some h => (h, r2.2)
  | none => (.NotFoundHandler, "")

/-- The method `(*ServeMux).Handler`: the handler to use for the request and
the registered pattern that matches. `CONNECT` requests are not
canonicalized; any other request whose path is not in canonical form gets a
handler that redirects to the canonical path. `Host` is the host with any
port already removed. -/
def ServeMux.Handler {H : Type} (mux : ServeMux H) (r : Request) : MuxHandler H × String :=
  if r.Method = "CONNECT" then mux.handler r.Host r.Path
  else
    let path := cleanPath r.Path
    if path ≠ r.Path then
      (.RedirectHandler path StatusMovedPermanently, (mux.handler r.Host path).2)
    else mux.handler r.Host r.Path

/-- The `ServeHTTP` of a handler returned by a mux, given that of the
registered handlers. -/
def MuxHandler.ServeHTTP {H : Type} (serve : H → Serve) : MuxHandler H → Serve
  | .handler h, r, w => serve h r w
  | .RedirectHandler url code, _, w => w.emit (.redirect url code)
  | .NotFoundHandler, _, w => w.emit .notFound

/-- The method `(*ServeMux).ServeHTTP`: dispatches the request to the handler
whose pattern most closely matches the request URL. -/
def ServeMux.ServeHTTP {H : Type} (serve : H → Serve) (mux : ServeMux H) : Serve :=
  fun r w =>
    if r.RequestURI = "*" then w.emit .badRequest
    else (mux.Handler r).1.ServeHTTP serve r w

/-! ## Collaborators that are not part of this file -/

/-- The `*accesstoken.CredentialStore` handed to `AuthHandler`. -/
structure CredentialStore where
  tokens : List String
  deriving DecidableEq, Repr

/-- The code this file calls and does not define, taken as parameters:
* `httpjson f` is the error returned by `httpjson.Handler(f, errorFormatter.Write)`
  (`none` for `nil`);
* `methods name req` is the failure, if any, with which the adapter around the
  reactor method `bcr.<name>` answers `req`, and `cost` the time serving takes;
* `latency` is the package function `latency(tab, req)`;
* `maxBytes` is the package function `maxBytes(h)`, as a map of `ServeHTTP`s;
* `Authenticate` is `authn.NewAPI(accessTokens).Authenticate`. -/
structure Env where
  httpjson : Func → Option GoError
  methods : String → Request → Option GoError
  cost : Func → Request → Nat
  latency : ServeMux JsonHandler → Request → Option RotatingLatency
  maxBytes : Serve → Serve
  Authenticate : CredentialStore → Request → Request × Option GoError

/-- Calling a function value: a reactor method answers as the environment
says, the closure of `alwaysError` returns its captured error. -/
def Func.call (env : Env) : Func → Request → Option GoError
  | .method name, req => env.methods name req
  | .constError err, _ => some err

/-- Modelled from the spec: the JSON Handler Adapter (`httpjson.Handler`, not
part of this file) invokes the operation once and writes its result or its
failure to the response; serving takes the time the environment says. -/
def JsonHandler.ServeHTTP (env : Env) (h : JsonHandler) : Serve :=
  fun req w =>
    { clock := w.clock + env.cost h.f req
      trace := w.trace ++ [.httpjson h.f req (h.f.call env req)] }

/-! ## `rpc_reactor.go` -/

/-- The function `jsonHandler`: the handler of `httpjson.Handler`, or a panic
with the error it returns. -/
def jsonHandler (env : Env) (f : Func) : Except Panic JsonHandler :=
  match env.httpjson f with
  | some err => .error (.error err)
  | none => .ok ⟨f⟩

/-- The function `alwaysError`. -/
def alwaysError (env : Env) (err : GoError) : Except Panic JsonHandler :=
  jsonHandler env (.constError err)

/-- The value `static.Handler{Assets: dashboard.Files, Default: ...}`; the
bundled asset tree is fixed. -/
structure StaticHandler where
  Default : String
  deriving DecidableEq, Repr

/-- The handlers registered on the mux of `webAssetsHandler`:
`http.StripPrefix(prefix, h)` for a static handler `h`, or `next`. -/
inductive WebHandler (N : Type) where
  | StripPrefix (pfx : String) (h : StaticHandler)
  | next (h : N)
  deriving DecidableEq, Repr

/-- The function `webAssetsHandler`. -/
def webAssetsHandler {N : Type} (next : N) : Except Panic (ServeMux (WebHandler N)) := do
  let mux : ServeMux (WebHandler N) := NewServeMux
  let mux ← mux.Handle "/dashboard/" (.StripPrefix "/dashboard/" ⟨"index.html"⟩)
  let mux ← mux.Handle "/" (.next next)
  pure mux

/-- The closure `latencyHandler` of `BuildHandler`, which captures the route mux `m`. -/
structure LatencyHandler where
  m : ServeMux JsonHandler
  deriving DecidableEq, Repr

/-- The handler `maxBytes(latencyHandler)`. -/
structure MaxBytesHandler where
  h : LatencyHandler
  deriving DecidableEq, Repr

/-- The `AccountMgr` of a wallet. -/
structure AccountManager where
  id : Nat
  deriving DecidableEq, Repr

/-- The `AssetReg` of a wallet. -/
structure AssetRegistry where
  id : Nat
  deriving DecidableEq, Repr

/-- The wallet of the reactor; a nil pointer is `none`. -/
structure Wallet where
  AccountMgr : Option AccountManager
  AssetReg : Option AssetRegistry
  deriving DecidableEq, Repr

/-- The fields of `BlockchainReactor` that `BuildHandler` reads and writes. -/
structure BlockchainReactor where
  wallet : Option Wallet
  Handler : Option (ServeMux (WebHandler MaxBytesHandler))
  deriving DecidableEq, Repr

/-- The condition of line 49:
`bcr.wallet != nil && bcr.wallet.AccountMgr != nil && bcr.wallet.AssetReg != nil`. -/
def walletGate (bcr : BlockchainReactor) : Bool :=
  match bcr.wallet with
  | none => false
  | some wallet => wallet.AccountMgr.isSome && wallet.AssetReg.isSome

/-- The registrations of lines 50-70, in order. -/
def walletRoutes : List (String × Func) :=
  [ ("/create-account", .method "createAccount"),
    ("/update-account-tags", .method "updateAccountTags"),
    ("/create-account-receiver", .method "createAccountReceiver"),
    ("/list-accounts", .method "listAccounts"),
    ("/list-addresses", .method "listAddresses"),
    ("/delete-account", .method "deleteAccount"),
    ("/validate-address", .method "validateAddress"),
    ("/create-asset", .method "createAsset"),
    ("/update-asset-alias", .method "updateAssetAlias"),
    ("/update-asset-tags", .method "updateAssetTags"),
    ("/list-assets", .method "listAssets"),
    ("/create-key", .method "pseudohsmCreateKey"),
    ("/list-keys", .method "pseudohsmListKeys"),
    ("/delete-key", .method "pseudohsmDeleteKey"),
    ("/reset-key-password", .method "pseudohsmResetPassword"),
    ("/get-transaction", .method "getTransaction"),
    ("/list-transactions", .method "listTransactions"),
    ("/list-balances", .method "listBalances") ]

/-- The registrations of lines 77-113, in order. -/
def coreRoutes : List (String × Func) :=
  [ ("/build-transaction", .method "build"),
    ("/sign-transaction", .method "pseudohsmSignTemplates"),
    ("/submit-transaction", .method "submit"),
    ("/sign-submit-transaction", .method "signSubmit"),
    ("/create-transaction-feed", .method "createTxFeed"),
    ("/get-transaction-feed", .method "getTxFeed"),
    ("/update-transaction-feed", .method "updateTxFeed"),
    ("/delete-transaction-feed", .method "deleteTxFeed"),
    ("/list-transaction-feeds", .method "listTxFeeds"),
    ("/list-unspent-outputs", .method "listUnspentOutputs"),
    ("/info", .method "info"),
    ("/create-access-token", .method "createAccessToken"),
    ("/list-access-tokens", .method "listAccessTokens"),
    ("/delete-access-token", .method "deleteAccessToken"),
    ("/check-access-token", .method "checkAccessToken"),
    ("/block-hash", .method "getBestBlockHash"),
    ("/export-private-key", .method "walletExportKey"),
    ("/import-private-key", .method "walletImportKey"),
    ("/import-key-progress", .method "keyImportProgress"),
    ("/get-block-header-by-hash", .method "getBlockHeaderByHash"),
    ("/get-block-header-by-height", .method "getBlockHeaderByHeight"),
    ("/get-block", .method "getBlock"),
    ("/get-block-count", .method "getBlockCount"),
    ("/get-block-transactions-count-by-hash", .method "getBlockTransactionsCountByHash"),
    ("/get-block-transactions-count-by-height", .method "getBlockTransactionsCountByHeight"),
    ("/net-info", .method "getNetInfo"),
    ("/is-mining", .method "isMining"),
    ("/gas-rate", .method "gasRate"),
    ("/getwork", .method "getWork"),
    ("/submitwork", .method "submitWork") ]

/-- A run of statements `m.Handle(path, jsonHandler(f))`: the argument is
evaluated first, then the registration. -/
def register (env : Env) : ServeMux JsonHandler → List (String × Func) →
    Except Panic (ServeMux JsonHandler)
  | m, [] => .ok m
  | m, (path, f) :: rest =>
    match jsonHandler env f with
    | .error p => .error p
    | .ok h =>
      match m.Handle path h with
      | .error p => .error p
      | .ok m1 => register env m1 rest

/-- Lines 48-113 of `BuildHandler`: the route mux `m`. The warning logged by
the `else` branch of the wallet gate is `buildLog`. -/
def routeTable (env : Env) (bcr : BlockchainReactor) : Except Panic (ServeMux JsonHandler) :=
  let m : ServeMux JsonHandler := NewServeMux
  match (if walletGate bcr then register env m walletRoutes else .ok m) with
  | .error p => .error p
  | .ok m =>
    match alwaysError env (errors.New "not Found") with
    | .error p => .error p
    | .ok notFound =>
      match m.Handle "/" notFound with
      | .error p => .error p
      | .ok m => register env m coreRoutes

/-- The warning of line 72, logged when the wallet gate fails; `BuildHandler`
has no other effect than this and setting `bcr.Handler`. -/
def buildLog (bcr : BlockchainReactor) : List Event :=
  if walletGate bcr then [] else [.logWarn "Please enable wallet"]

/-- The method `BuildHandler`: the reactor with its `Handler` set. -/
def BuildHandler (env : Env) (bcr : BlockchainReactor) : Except Panic BlockchainReactor := do
  let m ← routeTable env bcr
  let latencyHandler : LatencyHandler := ⟨m⟩
  let handler : MaxBytesHandler := ⟨latencyHandler⟩
  let handler ← webAssetsHandler handler
  pure { bcr with Handler := some handler }

/-- The `ServeHTTP` of the closure `latencyHandler`: when `latency` returns a
recorder, `defer l.RecordSince(time.Now())` reads the clock at once and
records, when the closure returns, the time elapsed since; then
`m.ServeHTTP(w, req)`, marked by the event `routeTable`. -/
def LatencyHandler.ServeHTTP (env : Env) (h : LatencyHandler) : Serve :=
  fun req w =>
    match env.latency h.m req with
    | some l =>
      let start := w.clock
      let w1 := w.emit (.timeNow start)
      let w2 := ServeMux.ServeHTTP (JsonHandler.ServeHTTP env) h.m req (w1.emit (.routeTable req))
      w2.emit (.recordSince l start (w2.clock - start))
    | none =>
      ServeMux.ServeHTTP (JsonHandler.ServeHTTP env) h.m req (w.emit (.routeTable req))

/-- The `ServeHTTP` of `maxBytes(h)`. -/
def MaxBytesHandler.ServeHTTP (env : Env) (h : MaxBytesHandler) : Serve :=
  env.maxBytes (h.h.ServeHTTP env)

/-- The `strings.TrimPrefix` of Go. -/
def TrimPrefix (s pfx : String) : String :=
  if pfx.data.isPrefixOf s.data then String.mk (s.data.drop pfx.length) else s

/-- The `ServeHTTP` of the handlers of `webAssetsHandler`. `http.StripPrefix`
(Go 1.16 to 1.21) serves the request with the prefix removed from the path
and from the escaped path, and answers not-found when the path does not start
with the prefix or when an escaped path is set and does not start with it;
the static handler (package `static`, not part of this file) serving a
request is the event `static`. -/
def WebHandler.ServeHTTP (env : Env) : WebHandler MaxBytesHandler → Serve
  | .StripPrefix pfx h, r, w =>
    if pfx = "" then w.emit (.static h.Default r)
    else
      let p := TrimPrefix r.Path pfx
      let rp := TrimPrefix r.RawPath pfx
      if p.length < r.Path.length ∧ (r.RawPath = "" ∨ rp.length < r.RawPath.length) then
        w.emit (.static h.Default { r with Path := p, RawPath := rp })
      else w.emit .notFound
  | .next h, r, w => h.ServeHTTP env r w

/-- The `ServeHTTP` of the handler stored in `bcr.Handler`; a reactor whose
handler is not built serves nothing. -/
def BlockchainReactor.ServeHTTP (env : Env) (bcr : BlockchainReactor) : Serve :=
  fun r w =>
    match bcr.Handler with
    | some mux => ServeMux.ServeHTTP (WebHandler.ServeHTTP env) mux r w
    | none => w

/-- The function `AuthHandler`, as the `ServeHTTP` of the handler it returns. -/
def AuthHandler (env : Env) (handler : Serve) (accessTokens : CredentialStore) : Serve :=
  fun req w =>
    match env.Authenticate accessTokens req with
    | (req, some err) =>
      let w1 := w.emit (.logError "Authenticate fail" (errors.Wrap err "Serve"))
      let err := errors.Sub errNotAuthenticated err
      w1.emit (.errorWrite req.Context err)
    | (req, none) => handler req w

/-- Modelled from the spec: the wire form of a failure, "a tagged value with a
stable kind and a human-readable message". -/
structure NormalizedError where
  kind : String
  message : String
  deriving DecidableEq, Repr

/-- Modelled from the spec: `errorFormatter` is not part of this file; the
caller is shown the kind of the error, which is its root, and the message of
that kind. -/
def errorFormatter.Format (err : GoError) : NormalizedError :=
  ⟨(errors.Root err).root, (errors.Root err).msg⟩

/-- What the caller receives for one event: the normalized error of an
`errorFormatter.Write`, nothing for events that do not write an error. -/
def Event.wire : Event → Option NormalizedError
  | .errorWrite _ err => some (errorFormatter.Format err)
  | _ => none

/-- `strings.HasPrefix`. -/
def HasPrefix (s pfx : String) : Bool := pfx.data.isPrefixOf s.data

/-- Is the event a latency sample? -/
def Event.isRecord : Event → Bool
  | .recordSince _ _ _ => true
  | _ => false

/-- Is the event a call of `m.ServeHTTP` on the route mux? -/
def Event.isDispatch : Event → Bool
  | .routeTable _ => true
  | _ => false

/-- Is the event the answer of a mux to a request: the status it writes
itself, a redirect, a not-found, or the serving by a registered JSON handler? -/
def Event.isAnswer : Event → Bool
  | .badRequest => true
  | .redirect _ _ => true
  | .notFound => true
  | .httpjson _ _ _ => true
  | _ => false

/-- Modelled from the spec: the package function `latency(tab, req)` is not
part of this file. "For a request whose path matches a known route" a sample
is recorded against the route's identity, which is its path; "for requests
matching no known route (falling to the catch-all), no latency sample is
recorded". A request matches a known route when the route mux dispatches it
to a registered handler under a pattern other than the catch-all `/`. -/
def latency (tab : ServeMux JsonHandler) (req : Request) : Option RotatingLatency :=
  match tab.Handler req with
  | (.handler _, pattern) => if pattern = "/" then none else some ⟨pattern⟩
  | _ => none

/-- Is the event an error written to the response? -/
def Event.isErrorWrite : Event → Bool
  | .errorWrite _ _ => true
  | _ => false

/-- The 18 wallet-dependent paths of the route enumeration. -/
def walletGatedPaths : List String :=
  [ "/create-account", "/update-account-tags", "/create-account-receiver", "/list-accounts",
    "/list-addresses", "/delete-account", "/validate-address",
    "/create-asset", "/update-asset-alias", "/update-asset-tags", "/list-assets",
    "/create-key", "/list-keys", "/delete-key", "/reset-key-password",
    "/get-transaction", "/list-transactions", "/list-balances" ]

/-- The paths of the route enumeration that name an operation. -/
def enumeratedPaths : List String :=
  walletRoutes.map (fun r => r.1) ++ coreRoutes.map (fun r => r.1)

/-- The sequence of paths `BuildHandler` registers on the route mux. -/
def registeredPaths (bcr : BlockchainReactor) : List String :=
  (if walletGate bcr then walletRoutes.map (fun r => r.1) else []) ++ ["/"] ++
    coreRoutes.map (fun r => r.1)

/-- The handler registered at `/`: `alwaysError(errors.New("not Found"))`. -/
def catchAll : JsonHandler := ⟨.constError (errors.New "not Found")⟩

/-- An environment in which every adaptation succeeds and nothing is instrumented. -/
def env0 : Env where
  httpjson := fun _ => none
  methods := fun _ _ => none
  cost := fun _ _ => 1
  latency := fun _ _ => none
  maxBytes := fun h => h
  Authenticate := fun _ r => (r, none)

/-- A reactor whose wallet and both registries are present. -/
def bcrOn : BlockchainReactor := ⟨some ⟨some ⟨0⟩, some ⟨0⟩⟩, none⟩

/-- A reactor without wallet. -/
def bcrOff : BlockchainReactor := ⟨none, none⟩

/-- The route mux for an outcome of the wallet gate, when no adaptation fails. -/
def builtTable (gate : Bool) : ServeMux JsonHandler :=
  match routeTable env0 (if gate then bcrOn else bcrOff) with
  | .ok m => m
  | .error _ => NewServeMux

/-- The mux that `webAssetsHandler(next)` returns. -/
def webMux {N : Type} (next : N) : ServeMux (WebHandler N) :=
  ⟨[ ("/dashboard/", ⟨true, .handler (.StripPrefix "/dashboard/" ⟨"index.html"⟩), "/dashboard/"⟩),
     ("/dashboard", ⟨false, .RedirectHandler "/dashboard/" StatusMovedPermanently, "/dashboard/"⟩),
     ("/", ⟨true, .handler (.next next), "/"⟩),
     ("", ⟨false, .RedirectHandler "/" StatusMovedPermanently, "/"⟩) ], false⟩

/-- The paths registered on the route mux for an outcome of the wallet gate,
the catch-all apart. -/
def operationPaths (gate : Bool) : List String :=
  (if gate then walletRoutes.map (fun r => r.1) else []) ++ coreRoutes.map (fun r => r.1)

/-- The entry of the catch-all in the route mux. -/
def catchAllEntry : muxEntry JsonHandler := ⟨true, .handler catchAll, "/"⟩

/-- An environment whose authenticator rejects every request. -/
def envDeny : Env := { env0 with Authenticate := fun _ r => (r, some (errors.New "token revoked")) }

/-- An environment whose latency lookup returns a recorder for every request. -/
def envTimed : Env := { env0 with latency := fun _ r => some ⟨r.Path⟩ }

/-- An environment whose latency lookup is the one modelled from the spec. -/
def envSpec : Env := { env0 with latency := latency }

/-- A request to `/info`. -/
def reqInfo : Request := ⟨"POST", "localhost", "/info", "", "/info", [], ""⟩

/-- A request whose path `//nope` is not canonical. -/
def reqNope : Request := ⟨"POST", "localhost", "//nope", "", "//nope", [], ""⟩

/-- A request whose path lies under `/dashboard/` and is not canonical. -/
def reqDotDot : Request := ⟨"GET", "localhost", "/dashboard/../info", "", "/dashboard/../info", [], ""⟩

/-- A request for `/dashboard`, the subtree root without its trailing slash. -/
def reqDashboard : Request := ⟨"GET", "localhost", "/dashboard", "", "/dashboard", [], ""⟩

/-- A request for a file of the dashboard. -/
def reqAsset : Request := ⟨"GET", "localhost", "/dashboard/app.js", "", "/dashboard/app.js", [], ""⟩

/-- A request for a path that names no route. -/
def reqUnknown : Request := ⟨"POST", "localhost", "/no-such-route", "", "/no-such-route", [], "{}"⟩

/-- A request for a file of the dashboard whose target escapes the slash after
`/dashboard`: the decoded path is under `/dashboard/`, the escaped path is not. -/
def reqEscaped : Request :=
  ⟨"GET", "localhost", "/dashboard/app.js", "/dashboard%2Fapp.js", "/dashboard%2Fapp.js", [], ""⟩

/-- A request whose request target is `*`. -/
def reqStar : Request := ⟨"GET", "localhost", "*", "", "*", [], ""⟩

/-! ## Lemmas -/

theorem jsonHandler_ok {env : Env} {f : Func} {h : JsonHandler}
    (hk : jsonHandler env f = .ok h) : h = ⟨f⟩ := by
  unfold jsonHandler at hk
  cases hf : env.httpjson f with
  | some err => simp [hf] at hk
  | none => simp [hf] at hk; exact hk.symm

theorem register_env0 {env : Env} : ∀ (rs : List (String × Func)) (m m1 : ServeMux JsonHandler),
    register env m rs = .ok m1 → register env0 m rs = .ok m1 := by
  intro rs
  induction rs with
  | nil => intro m m1 h; simpa [register] using h
  | cons r rest ih =>
    intro m m1 h
    obtain ⟨path, f⟩ := r
    unfold register at h ⊢
    cases hj : jsonHandler env f with
    | error p => simp [hj] at h
    | ok hd =>
      have hd' := jsonHandler_ok hj
      subst hd'
      have h0 : jsonHandler env0 f = .ok ⟨f⟩ := rfl
      rw [hj] at h
      rw [h0]
      cases hm : m.Handle path ⟨f⟩ with
      | error p => simp [hm] at h
      | ok m2 =>
        simp only [hm] at h ⊢
        exact ih m2 m1 h

theorem routeTable_env0 {env : Env} {bcr : BlockchainReactor} {m : ServeMux JsonHandler}
    (h : routeTable env bcr = .ok m) : routeTable env0 bcr = .ok m := by
  unfold routeTable at h ⊢
  simp only at h ⊢
  cases h1 : (if walletGate bcr = true then register env NewServeMux walletRoutes
      else Except.ok NewServeMux) with
  | error p => rw [h1] at h; simp at h
  | ok m1 =>
    rw [h1] at h
    have h1' : (if walletGate bcr = true then register env0 NewServeMux walletRoutes
        else Except.ok NewServeMux) = .ok m1 := by
      by_cases hg : walletGate bcr = true
      · simp only [hg, if_true] at h1 ⊢
        exact register_env0 _ _ _ h1
      · simp only [hg] at h1 ⊢
        exact h1
    rw [h1']
    simp only at h ⊢
    cases h2 : alwaysError env (errors.New "not Found") with
    | error p => rw [h2] at h; simp at h
    | ok nf =>
      have hnf := jsonHandler_ok h2
      subst hnf
      have h2' : alwaysError env0 (errors.New "not Found") =
          .ok ⟨.constError (errors.New "not Found")⟩ := rfl
      rw [h2] at h
      rw [h2']
      simp only at h ⊢
      cases h3 : m1.Handle "/" ⟨.constError (errors.New "not Found")⟩ with
      | error p => rw [h3] at h; simp at h
      | ok m2 =>
        rw [h3] at h
        simp only at h ⊢
        exact register_env0 _ _ _ h

theorem walletGate_cases (bcr : BlockchainReactor) :
    routeTable env0 bcr = routeTable env0 (if walletGate bcr then bcrOn else bcrOff) := by
  cases hg : walletGate bcr
  · have : walletGate bcrOff = false := rfl
    simp [routeTable, hg, this]
  · have : walletGate bcrOn = true := rfl
    simp [routeTable, hg, this]

theorem routeTable_eq_builtTable {env : Env} {bcr : BlockchainReactor} {m : ServeMux JsonHandler}
    (h : routeTable env bcr = .ok m) : m = builtTable (walletGate bcr) := by
  have h0 := routeTable_env0 h
  rw [walletGate_cases] at h0
  unfold builtTable
  rw [h0]


theorem length_eq_data (s : String) : s.length = s.data.length := by
  cases s; rfl

theorem pathMatch_exact {k p : String} (h1 : k.data.getLast? ≠ some '/') (h2 : k ≠ "")
    (h : pathMatch k p = true) : k = p := by
  unfold pathMatch at h
  have h3 : ¬ k.length = 0 := by
    intro h0
    apply h2
    apply String.ext
    rw [length_eq_data] at h0
    exact List.length_eq_zero.mp h0
  simp only [h3, if_false, h1, ne_eq, not_false_eq_true, if_true, decide_eq_true_eq] at h
  exact h

theorem pathMatch_empty (p : String) : pathMatch "" p = false := by
  unfold pathMatch
  have : ("" : String).length = 0 := rfl
  simp [this]

theorem pathMatch_subtree {k p : String} (h1 : k.data.getLast? = some '/') (h2 : k ≠ "") :
    pathMatch k p = HasPrefix p k := by
  unfold pathMatch HasPrefix
  have h3 : ¬ k.length = 0 := by
    intro h0
    apply h2
    apply String.ext
    rw [length_eq_data] at h0
    exact List.length_eq_zero.mp h0
  simp only [h3, if_false, h1, ne_eq, not_true_eq_false]
  rw [Bool.eq_iff_iff]
  simp only [decide_eq_true_eq, List.isPrefixOf_iff_prefix, length_eq_data]
  constructor
  · rintro ⟨_, h⟩
    rw [← h]
    exact List.take_prefix _ _
  · intro h
    refine ⟨h.length_le, ?_⟩
    exact List.prefix_iff_eq_take.mp h |>.symm

/-- The loop of `match` returns the entry of `k` when every other matching
entry has a shorter key. -/
theorem foldl_matchStep_best {H : Type} (path k : String) (e : muxEntry H)
    (hk : pathMatch k path = true) :
    ∀ (l : List (String × muxEntry H)) (acc : Option (MuxHandler H) × String × Nat),
      (∀ kv ∈ l, pathMatch kv.1 path = true → kv = (k, e) ∨ kv.1.length < k.length) →
      (acc = (some e.h, e.pattern, k.length) ∨
        ((k, e) ∈ l ∧ (acc.1 = none ∨ acc.2.2 < k.length))) →
      l.foldl (matchStep path) acc = (some e.h, e.pattern, k.length) := by
  intro l
  induction l with
  | nil =>
    intro acc _ hacc
    rcases hacc with h | ⟨h, _⟩
    · simpa using h
    · simp at h
  | cons kv rest ih =>
    intro acc hall hacc
    simp only [List.foldl_cons]
    apply ih
    · intro kv' hkv'
      exact hall kv' (List.mem_cons_of_mem _ hkv')
    · by_cases hm : pathMatch kv.1 path = true
      · rcases hall kv (List.mem_cons_self _ _) hm with heq | hlt
        · -- this is the entry of k
          subst heq
          rcases hacc with h | ⟨_, h⟩
          · left
            subst h
            simp [matchStep, hk]
          · left
            unfold matchStep
            simp only [hk, not_true_eq_false, if_false]
            have : (acc.1.isNone = true ∨ acc.2.2 < k.length) := by
              rcases h with h | h
              · left; simp [h]
              · right; exact h
            rw [if_pos this]
        · rcases hacc with h | ⟨hmem, h⟩
          · left
            subst h
            unfold matchStep
            simp only [hm, not_true_eq_false, if_false]
            have : ¬ (k.length < kv.1.length) := by omega
            simp [this]
          · right
            refine ⟨?_, ?_⟩
            · rcases List.mem_cons.mp hmem with h' | h'
              · exfalso
                rw [← h'] at hlt
                simp at hlt
              · exact h'
            · unfold matchStep
              simp only [hm, not_true_eq_false, if_false]
              split
              · right; exact hlt
              · exact h
      · have hstep : matchStep path acc kv = acc := by
          unfold matchStep
          simp [hm]
        rw [hstep]
        rcases hacc with h | ⟨hmem, h⟩
        · left; exact h
        · right
          refine ⟨?_, h⟩
          rcases List.mem_cons.mp hmem with h' | h'
          · exfalso
            rw [← h'] at hm
            exact hm hk
          · exact h'

theorem match_best {H : Type} (mux : ServeMux H) (path k : String) (e : muxEntry H)
    (hk : pathMatch k path = true) (hmem : (k, e) ∈ mux.m)
    (hall : ∀ kv ∈ mux.m, pathMatch kv.1 path = true → kv = (k, e) ∨ kv.1.length < k.length) :
    mux.match path = (some e.h, e.pattern) := by
  unfold ServeMux.match
  have := foldl_matchStep_best path k e hk mux.m (none, "", 0) hall (Or.inr ⟨hmem, Or.inl rfl⟩)
  simp only [this]

/-- On a mux without host patterns, a request whose path is canonical is
looked up by its path, whatever its method and host. -/
theorem Handler_canonical {H : Type} (mux : ServeMux H) (r : Request)
    (hh : mux.hosts = false) (hc : cleanPath r.Path = r.Path) :
    mux.Handler r =
      (match (mux.match r.Path).1 with
        | some h => (h, (mux.match r.Path).2)
        | none => (.NotFoundHandler, "")) := by
  unfold ServeMux.Handler ServeMux.handler
  simp [hh, hc]

theorem getLast?_cons_of_ne_nil {c : Char} {l : List Char} (h : l ≠ []) :
    (c :: l).getLast? = l.getLast? := by
  cases l with
  | nil => exact absurd rfl h
  | cons a t => simp [List.getLast?_cons_cons]

theorem ne_nil_of_getLast? {l : List Char} {c : Char} (h : l.getLast? = some c) : l ≠ [] := by
  intro hl
  subst hl
  simp at h

theorem backtrack_root : ∀ (out : List Char), out.getLast? = some '/' → 1 < out.length →
    (backtrack 1 out).getLast? = some '/' := by
  intro out
  induction out with
  | nil => intro h; simp at h
  | cons c rest ih =>
    intro h hlen
    have hrest : rest ≠ [] := by
      intro hr
      subst hr
      simp at hlen
    rw [getLast?_cons_of_ne_nil hrest] at h
    unfold backtrack
    split
    · rename_i hc
      exact ih h hc.1
    · exact h

theorem cleanLoop_root : ∀ (l : List Char) (mode : CleanMode) (out : List Char),
    out.getLast? = some '/' → (cleanLoop true mode l out 1).getLast? = some '/' := by
  intro l
  induction l with
  | nil => intro mode out h; cases mode <;> simpa [cleanLoop] using h
  | cons c t ih =>
    intro mode out h
    have hne := ne_nil_of_getLast? h
    cases mode with
    | skip => simp only [cleanLoop]; exact ih _ _ h
    | copy =>
      simp only [cleanLoop]
      split
      · exact ih _ _ h
      · apply ih
        rw [getLast?_cons_of_ne_nil hne]; exact h
    | scan =>
      simp only [cleanLoop]
      split
      · exact ih _ _ h
      · split
        · exact ih _ _ h
        · split
          · split
            · rename_i hlt
              exact ih _ _ (backtrack_root out h hlt)
            · simp only [not_true_eq_false, if_false]
              exact ih _ _ h
          · apply ih
            split
            · rw [getLast?_cons_of_ne_nil (by simp), getLast?_cons_of_ne_nil hne]; exact h
            · rw [getLast?_cons_of_ne_nil hne]; exact h

theorem head?_reverse_of_getLast? {l : List Char} {c : Char} (h : l.getLast? = some c) :
    l.reverse.head? = some c := by
  rw [List.head?_reverse]; exact h

theorem Clean_rooted (p : String) (hp : p.data.head? = some '/') :
    (Clean p).data.head? = some '/' := by
  unfold Clean
  have hne : p ≠ "" := by
    intro h; subst h; simp at hp
  simp only [hne, if_false, hp, decide_True, if_true]
  have h := cleanLoop_root p.data.tail .scan ['/'] rfl
  have hl := ne_nil_of_getLast? h
  have hlen : ¬ (cleanLoop true .scan p.data.tail ['/'] 1).length = 0 := by
    intro h0; exact hl (List.length_eq_zero.mp h0)
  simp only [hlen, if_false]
  exact head?_reverse_of_getLast? h

/-- The canonical path always starts with a slash. -/
theorem cleanPath_rooted (p : String) : (cleanPath p).data.head? = some '/' := by
  unfold cleanPath
  by_cases h0 : p = ""
  · simp [h0]
  · simp only [h0, if_false]
    have key : ∀ q : String, q.data.head? = some '/' →
        (if q.data.getLast? = some '/' ∧ Clean q ≠ "/" then Clean q ++ "/" else Clean q).data.head?
          = some '/' := by
      intro q hq
      have hc := Clean_rooted q hq
      split
      · have : (Clean q ++ "/").data = (Clean q).data ++ ['/'] := rfl
        rw [this]
        cases hd : (Clean q).data with
        | nil => rw [hd] at hc; simp at hc
        | cons a t => rw [hd] at hc; simpa using hc
      · exact hc
    by_cases h1 : p.data.head? = some '/'
    · simp only [h1, ne_eq, not_true_eq_false, if_false]
      exact key p h1
    · simp only [h1, ne_eq, not_false_eq_true, if_true]
      exact key ("/" ++ p) rfl

theorem canonical_rooted {p : String} (h : cleanPath p = p) : p.data.head? = some '/' := by
  rw [← h]; exact cleanPath_rooted p

theorem webAssetsHandler_eq {N : Type} (next : N) :
    webAssetsHandler next = .ok (webMux next) := by
  rfl

theorem BuildHandler_ok {env : Env} {bcr bcr1 : BlockchainReactor}
    (h : BuildHandler env bcr = .ok bcr1) :
    ∃ m, routeTable env bcr = .ok m ∧ bcr1 = { bcr with Handler := some (webMux ⟨⟨m⟩⟩) } := by
  unfold BuildHandler at h
  simp only [bind, Except.bind, pure, Except.pure] at h
  cases hm : routeTable env bcr with
  | error p => rw [hm] at h; simp at h
  | ok m =>
    rw [hm] at h
    simp only [webAssetsHandler_eq] at h
    refine ⟨m, rfl, ?_⟩
    injection h with h
    exact h.symm

theorem builtTable_hosts (g : Bool) : (builtTable g).hosts = false := by
  cases g <;> decide

set_option maxRecDepth 100000 in
theorem builtTable_keys (g : Bool) : ∀ kv ∈ (builtTable g).m,
    kv.1 = "" ∨ kv = ("/", catchAllEntry) ∨
      (kv.1.data.getLast? ≠ some '/' ∧ kv.1 ≠ "" ∧ kv.1 ∈ operationPaths g) := by
  cases g <;> decide

set_option maxRecDepth 100000 in
theorem builtTable_catchAll (g : Bool) : ("/", catchAllEntry) ∈ (builtTable g).m := by
  cases g <;> decide

theorem pathMatch_root {p : String} (h : p.data.head? = some '/') : pathMatch "/" p = true := by
  rw [pathMatch_subtree (by decide) (by decide)]
  unfold HasPrefix
  cases hd : p.data with
  | nil => rw [hd] at h; simp at h
  | cons a t =>
    rw [hd] at h
    simp only [List.head?_cons, Option.some.injEq] at h
    subst h
    have : ("/" : String).data = ['/'] := rfl
    rw [this]
    simp [List.isPrefixOf]

/-- On the route mux, a rooted path that is no registered operation path
matches the catch-all only. -/
theorem builtTable_match_other (g : Bool) (p : String) (hr : p.data.head? = some '/')
    (hp : p ∉ operationPaths g) :
    (builtTable g).match p = (some (.handler catchAll), "/") := by
  have := match_best (builtTable g) p "/" catchAllEntry (pathMatch_root hr)
    (builtTable_catchAll g) (by
      intro kv hkv hm
      rcases builtTable_keys g kv hkv with h | h | ⟨h1, h2, h3⟩
      · rw [h, pathMatch_empty] at hm
        exact absurd hm (by decide)
      · left; exact h
      · have := pathMatch_exact h1 h2 hm
        rw [this] at h3
        exact absurd h3 hp)
  exact this

set_option maxRecDepth 100000 in
theorem builtTable_wallet_off : ∀ p ∈ walletGatedPaths,
    (builtTable false).isExplicit p = false ∧ p ∉ operationPaths false ∧
      p.data.head? = some '/' ∧ cleanPath p = p := by
  decide

set_option maxRecDepth 100000 in
theorem builtTable_wallet_on : ∀ rt ∈ walletRoutes,
    (builtTable true).isExplicit rt.1 = true ∧
      mapGet (builtTable true).m rt.1 = some ⟨true, .handler ⟨rt.2⟩, rt.1⟩ := by
  decide

theorem routeTable_builtTable (bcr : BlockchainReactor) :
    routeTable env0 bcr = .ok (builtTable (walletGate bcr)) := by
  rw [walletGate_cases]
  cases walletGate bcr <;> rfl

theorem register_cases (env : Env) : ∀ (rs : List (String × Func)) (m : ServeMux JsonHandler),
    register env m rs = register env0 m rs ∨ ∃ err, register env m rs = .error (.error err) := by
  intro rs
  induction rs with
  | nil => intro m; left; rfl
  | cons r rest ih =>
    intro m
    obtain ⟨path, f⟩ := r
    unfold register
    have h0 : jsonHandler env0 f = .ok ⟨f⟩ := rfl
    cases hf : env.httpjson f with
    | some err =>
      right
      refine ⟨err, ?_⟩
      simp [jsonHandler, hf]
    | none =>
      have hj : jsonHandler env f = .ok ⟨f⟩ := by simp [jsonHandler, hf]
      rw [hj, h0]
      simp only
      cases hm : m.Handle path ⟨f⟩ with
      | error p => left; rfl
      | ok m1 => exact ih m1

theorem routeTable_cases (env : Env) (bcr : BlockchainReactor) :
    routeTable env bcr = .ok (builtTable (walletGate bcr)) ∨
      ∃ err, routeTable env bcr = .error (.error err) := by
  rw [← routeTable_builtTable bcr]
  unfold routeTable
  simp only
  have hw : (if walletGate bcr = true then register env NewServeMux walletRoutes
        else Except.ok NewServeMux) =
      (if walletGate bcr = true then register env0 NewServeMux walletRoutes
        else Except.ok NewServeMux) ∨
      ∃ err, (if walletGate bcr = true then register env NewServeMux walletRoutes
        else Except.ok NewServeMux) = .error (.error err) := by
    by_cases hg : walletGate bcr = true
    · simp only [hg, if_true]
      exact register_cases env _ _
    · simp only [hg]
      left; trivial
  rcases hw with hw | ⟨err, hw⟩
  · rw [hw]
    cases (if walletGate bcr = true then register env0 NewServeMux walletRoutes
        else Except.ok NewServeMux) with
    | error p => left; rfl
    | ok m1 =>
      simp only
      have h0 : alwaysError env0 (errors.New "not Found") = .ok catchAll := rfl
      cases hf : env.httpjson (.constError (errors.New "not Found")) with
      | some err =>
        right
        refine ⟨err, ?_⟩
        simp [alwaysError, jsonHandler, hf]
      | none =>
        have hj : alwaysError env (errors.New "not Found") = .ok catchAll := by
          simp [alwaysError, jsonHandler, hf, catchAll]
        rw [hj, h0]
        simp only
        cases m1.Handle "/" catchAll with
        | error p => left; rfl
        | ok m2 =>
          simp only
          rcases register_cases env coreRoutes m2 with h | ⟨err, h⟩
          · left; exact h
          · right; exact ⟨err, h⟩
  · right
    refine ⟨err, ?_⟩
    rw [hw]

theorem walletGate_true_iff (bcr : BlockchainReactor) :
    walletGate bcr = true ↔
      ∃ wallet mgr reg, bcr.wallet = some wallet ∧ wallet.AccountMgr = some mgr ∧
        wallet.AssetReg = some reg := by
  unfold walletGate
  cases hw : bcr.wallet with
  | none => simp
  | some wallet =>
    cases ha : wallet.AccountMgr <;> cases hr : wallet.AssetReg <;> simp [ha, hr]

theorem walletGate_false_iff (bcr : BlockchainReactor) :
    walletGate bcr = false ↔
      (bcr.wallet = none ∨ ∃ wallet, bcr.wallet = some wallet ∧
        (wallet.AccountMgr = none ∨ wallet.AssetReg = none)) := by
  unfold walletGate
  cases hw : bcr.wallet with
  | none => simp
  | some wallet =>
    cases ha : wallet.AccountMgr <;> cases hr : wallet.AssetReg <;> simp [ha, hr]

/-- The route mux dispatches a canonical path by `match`. -/
theorem builtTable_Handler (g : Bool) (r : Request) (hc : cleanPath r.Path = r.Path)
    (h : MuxHandler JsonHandler) (pat : String)
    (hm : (builtTable g).match r.Path = (some h, pat)) :
    (builtTable g).Handler r = (h, pat) := by
  rw [Handler_canonical _ _ (builtTable_hosts g) hc, hm]

set_option maxRecDepth 100000 in
theorem builtTable_gated_on : ∀ p ∈ walletGatedPaths, (builtTable true).isExplicit p = true := by
  decide

theorem register_of_adapts {env : Env} (ha : ∀ f, env.httpjson f = none) :
    ∀ (rs : List (String × Func)) (m : ServeMux JsonHandler),
      register env m rs = register env0 m rs := by
  intro rs
  induction rs with
  | nil => intro m; rfl
  | cons r rest ih =>
    intro m
    obtain ⟨path, f⟩ := r
    unfold register
    have hj : jsonHandler env f = .ok ⟨f⟩ := by simp [jsonHandler, ha f]
    have h0 : jsonHandler env0 f = .ok ⟨f⟩ := rfl
    rw [hj, h0]
    simp only
    cases hm : m.Handle path ⟨f⟩ with
    | error p => rfl
    | ok m1 => exact ih m1

theorem routeTable_of_adapts {env : Env} (ha : ∀ f, env.httpjson f = none)
    (bcr : BlockchainReactor) : routeTable env bcr = .ok (builtTable (walletGate bcr)) := by
  rcases routeTable_cases env bcr with h | ⟨err, h⟩
  · exact h
  · exfalso
    unfold routeTable at h
    simp only at h
    have hj : alwaysError env (errors.New "not Found") = .ok catchAll := by
      simp [alwaysError, jsonHandler, ha, catchAll]
    rw [hj] at h
    have hb := routeTable_builtTable bcr
    unfold routeTable at hb
    simp only at hb
    have h0 : alwaysError env0 (errors.New "not Found") = .ok catchAll := rfl
    rw [h0] at hb
    have hw : (if walletGate bcr = true then register env NewServeMux walletRoutes
          else Except.ok NewServeMux) =
        (if walletGate bcr = true then register env0 NewServeMux walletRoutes
          else Except.ok NewServeMux) := by
      by_cases hg : walletGate bcr = true
      · simp only [hg, if_true]; exact register_of_adapts ha _ _
      · simp [hg]
    rw [hw] at h
    cases hm1 : (if walletGate bcr = true then register env0 NewServeMux walletRoutes
          else Except.ok NewServeMux) with
    | error p => rw [hm1] at hb; simp at hb
    | ok m1 =>
      rw [hm1] at h hb
      simp only at h hb
      cases hm2 : m1.Handle "/" catchAll with
      | error p => rw [hm2] at hb; simp at hb
      | ok m2 =>
        rw [hm2] at h hb
        simp only at h hb
        rw [register_of_adapts ha] at h
        rw [hb] at h
        cases h

set_option maxRecDepth 100000 in
theorem builtTable_order (g : Bool) :
    ((builtTable g).m.filter (fun kv => kv.2.explicit)).map (fun kv => kv.1) =
      (if g then walletRoutes.map (fun r => r.1) else []) ++ ["/"] ++
        coreRoutes.map (fun r => r.1) := by
  cases g <;> decide

set_option maxRecDepth 100000 in
theorem registeredPaths_nodup (bcr : BlockchainReactor) : (registeredPaths bcr).Nodup := by
  unfold registeredPaths
  cases walletGate bcr <;> decide

/-- Serving a request on the route mux adds exactly one event, which is
neither a latency sample nor a dispatch mark, and lets time pass. -/
theorem routeServe_event (env : Env) (m : ServeMux JsonHandler) (r : Request) (w : World) :
    ∃ e d, ServeMux.ServeHTTP (JsonHandler.ServeHTTP env) m r w = ⟨w.clock + d, w.trace ++ [e]⟩ ∧
      e.isRecord = false ∧ e.isDispatch = false ∧
      (∀ f, r.RequestURI ≠ "*" → (m.Handler r).1 = .handler ⟨f⟩ →
        e = .httpjson f r (f.call env r) ∧ d = env.cost f r) := by
  unfold ServeMux.ServeHTTP
  by_cases hu : r.RequestURI = "*"
  · refine ⟨.badRequest, 0, ?_, rfl, rfl, ?_⟩
    · simp [hu, World.emit]
    · intro f hne; exact absurd hu hne
  · simp only [hu, if_false]
    cases hh : (m.Handler r).1 with
    | handler h =>
      refine ⟨.httpjson h.f r (h.f.call env r), env.cost h.f r, rfl, rfl, rfl, ?_⟩
      intro f _ hf
      injection hf with hf
      subst hf
      exact ⟨rfl, rfl⟩
    | RedirectHandler url code =>
      refine ⟨.redirect url code, 0, rfl, rfl, rfl, ?_⟩
      intro f _ hf; cases hf
    | NotFoundHandler =>
      refine ⟨.notFound, 0, rfl, rfl, rfl, ?_⟩
      intro f _ hf; cases hf

theorem webMux_match_static {N : Type} (next : N) (p : String)
    (hp : HasPrefix p "/dashboard/" = true) :
    (webMux next).match p =
      (some (.handler (.StripPrefix "/dashboard/" ⟨"index.html"⟩)), "/dashboard/") := by
  have hk : pathMatch "/dashboard/" p = true := by
    rw [pathMatch_subtree (by decide) (by decide)]; exact hp
  have := match_best (webMux next) p "/dashboard/"
    ⟨true, .handler (.StripPrefix "/dashboard/" ⟨"index.html"⟩), "/dashboard/"⟩ hk
    (by simp [webMux]) (by
      intro kv hkv _
      simp only [webMux, List.mem_cons, List.mem_singleton, List.not_mem_nil, or_false] at hkv
      rcases hkv with h | h | h | h
      · left; exact h
      · right; rw [h]; simp only; decide
      · right; rw [h]; simp only; decide
      · right; rw [h]; simp only; decide)
  exact this

theorem webMux_match_next {N : Type} (next : N) (p : String)
    (hr : p.data.head? = some '/') (hp : HasPrefix p "/dashboard/" = false)
    (hd : p ≠ "/dashboard") :
    (webMux next).match p = (some (.handler (.next next)), "/") := by
  have := match_best (webMux next) p "/" ⟨true, .handler (.next next), "/"⟩ (pathMatch_root hr)
    (by simp [webMux]) (by
      intro kv hkv hm
      simp only [webMux, List.mem_cons, List.mem_singleton, List.not_mem_nil, or_false] at hkv
      rcases hkv with h | h | h | h
      · exfalso
        rw [h] at hm
        simp only at hm
        rw [pathMatch_subtree (by decide) (by decide), hp] at hm
        cases hm
      · exfalso
        rw [h] at hm
        simp only at hm
        exact hd (pathMatch_exact (by decide) (by decide) hm).symm
      · left; exact h
      · exfalso
        rw [h] at hm
        simp only at hm
        rw [pathMatch_empty] at hm
        cases hm)
  exact this

theorem webMux_Handler {N : Type} (next : N) (r : Request) (hc : cleanPath r.Path = r.Path)
    (h : MuxHandler (WebHandler N)) (pat : String)
    (hm : (webMux next).match r.Path = (some h, pat)) :
    (webMux next).Handler r = (h, pat) := by
  rw [Handler_canonical _ _ rfl hc, hm]

theorem TrimPrefix_shorter {p pfx : String} (hp : HasPrefix p pfx = true) (hne : pfx ≠ "") :
    (TrimPrefix p pfx).length < p.length := by
  unfold TrimPrefix
  unfold HasPrefix at hp
  simp only [hp, if_true, length_eq_data, List.length_drop]
  have h1 : pfx.data.length ≤ p.data.length := (List.isPrefixOf_iff_prefix.mp hp).length_le
  have h2 : 0 < pfx.data.length := by
    rcases Nat.eq_zero_or_pos pfx.data.length with h | h
    · exfalso; apply hne; apply String.ext; exact List.length_eq_zero.mp h
    · exact h
  omega

theorem TrimPrefix_same {p pfx : String} (hp : HasPrefix p pfx = false) :
    TrimPrefix p pfx = p := by
  unfold TrimPrefix
  unfold HasPrefix at hp
  simp [hp]

/-- One dispatch to the route mux answers with one event and takes some time,
the same from every world. -/
theorem routeServe_answer (env : Env) (m : ServeMux JsonHandler) (r : Request) :
    ∃ e d, e.isAnswer = true ∧ e.isRecord = false ∧ e.isDispatch = false ∧
      ∀ w0 : World, ServeMux.ServeHTTP (JsonHandler.ServeHTTP env) m r w0 =
        ⟨w0.clock + d, w0.trace ++ [e]⟩ := by
  unfold ServeMux.ServeHTTP
  by_cases hu : r.RequestURI = "*"
  · refine ⟨.badRequest, 0, rfl, rfl, rfl, ?_⟩
    intro w0
    simp [hu, World.emit]
  · simp only [hu, if_false]
    cases hh : (m.Handler r).1 with
    | handler h =>
      exact ⟨.httpjson h.f r (h.f.call env r), env.cost h.f r, rfl, rfl, rfl, fun _ => rfl⟩
    | RedirectHandler url code =>
      exact ⟨.redirect url code, 0, rfl, rfl, rfl, fun _ => rfl⟩
    | NotFoundHandler =>
      exact ⟨.notFound, 0, rfl, rfl, rfl, fun _ => rfl⟩

/-- What the loop of `match` returns is the handler and the pattern of an entry. -/
theorem foldl_matchStep_mem {H : Type} (path : String) (all : List (String × muxEntry H)) :
    ∀ (l : List (String × muxEntry H)) (acc : Option (MuxHandler H) × String × Nat),
      (∀ kv ∈ l, kv ∈ all) →
      (∀ h, acc.1 = some h → ∃ kv ∈ all, kv.2.h = h ∧ kv.2.pattern = acc.2.1) →
      ∀ h, (l.foldl (matchStep path) acc).1 = some h →
        ∃ kv ∈ all, kv.2.h = h ∧ kv.2.pattern = (l.foldl (matchStep path) acc).2.1 := by
  intro l
  induction l with
  | nil => intro acc _ hacc h hh; exact hacc h hh
  | cons kv rest ih =>
    intro acc hsub hacc
    simp only [List.foldl_cons]
    apply ih
    · intro kv1 h1; exact hsub kv1 (List.mem_cons_of_mem _ h1)
    · intro h hh
      unfold matchStep at hh ⊢
      split
      · rename_i hc
        rw [if_pos hc] at hh
        exact hacc h hh
      · rename_i hc
        rw [if_neg hc] at hh
        split
        · rename_i hc2
          rw [if_pos hc2] at hh
          simp only [Option.some.injEq] at hh
          exact ⟨kv, hsub kv (List.mem_cons_self _ _), hh, rfl⟩
        · rename_i hc2
          rw [if_neg hc2] at hh
          exact hacc h hh

theorem match_mem {H : Type} (mux : ServeMux H) (path : String) (h : MuxHandler H)
    (pat : String) (hm : mux.match path = (some h, pat)) :
    ∃ kv ∈ mux.m, kv.2.h = h ∧ kv.2.pattern = pat := by
  unfold ServeMux.match at hm
  simp only [Prod.mk.injEq] at hm
  obtain ⟨h1, h2⟩ := hm
  obtain ⟨kv, hkv, hh, hp⟩ := foldl_matchStep_mem path mux.m mux.m (none, "", 0)
    (fun _ h => h) (by intro h hh; cases hh) h h1
  exact ⟨kv, hkv, hh, hp.trans h2⟩

/-- A registered handler that a mux without host patterns returns for a request
is the handler of one of its entries, under the pattern of that entry. -/
theorem Handler_mem {H : Type} (mux : ServeMux H) (r : Request) (hh : mux.hosts = false)
    (h : H) (pat : String) (hr : mux.Handler r = (.handler h, pat)) :
    ∃ kv ∈ mux.m, kv.2.h = .handler h ∧ kv.2.pattern = pat := by
  have key : ∀ path : String, mux.handler r.Host path = (.handler h, pat) →
      ∃ kv ∈ mux.m, kv.2.h = .handler h ∧ kv.2.pattern = pat := by
    intro path hp
    unfold ServeMux.handler at hp
    simp only [hh, Bool.false_eq_true, if_false, Option.isNone_none, if_true] at hp
    cases hm : (mux.match path).1 with
    | none => rw [hm] at hp; simp at hp
    | some h1 =>
      rw [hm] at hp
      simp only [Prod.mk.injEq] at hp
      obtain ⟨hp1, hp2⟩ := hp
      subst hp1
      exact match_mem mux path _ _ (Prod.ext hm hp2)
  unfold ServeMux.Handler at hr
  split at hr
  · exact key _ hr
  · simp only at hr
    split at hr
    · simp at hr
    · exact key _ hr

set_option maxRecDepth 100000 in
theorem builtTable_catchAll_pattern (g : Bool) : ∀ kv ∈ (builtTable g).m,
    (kv.2.h = .handler catchAll → kv.2.pattern = "/") ∧
    (kv.2.pattern = "/" →
      kv.2.h = .handler catchAll ∨ kv.2.h = .RedirectHandler "/" StatusMovedPermanently) := by
  cases g <;> decide

/-- On a built route mux the lookup modelled from the spec returns no recorder
for a request that falls to the catch-all. -/
theorem latency_catchAll (g : Bool) (r : Request)
    (h : ((builtTable g).Handler r).1 = .handler catchAll) : latency (builtTable g) r = none := by
  have hr : (builtTable g).Handler r = (.handler catchAll, ((builtTable g).Handler r).2) :=
    Prod.ext h rfl
  obtain ⟨kv, hkv, h1, h2⟩ := Handler_mem _ r (builtTable_hosts g) _ _ hr
  have hp := (builtTable_catchAll_pattern g kv hkv).1 h1
  unfold latency
  rw [hr]
  simp only
  rw [← h2, hp]
  simp

/-- On a built route mux the lookup modelled from the spec returns the recorder
of the matched pattern for a request dispatched to a handler other than the
catch-all. -/
theorem latency_known (g : Bool) (r : Request) (hd : JsonHandler) (p : String)
    (h : (builtTable g).Handler r = (.handler hd, p)) (hne : hd ≠ catchAll) :
    latency (builtTable g) r = some ⟨p⟩ := by
  obtain ⟨kv, hkv, h1, h2⟩ := Handler_mem _ r (builtTable_hosts g) _ _ h
  have hp : p ≠ "/" := by
    intro hp
    rw [← h2] at hp
    rcases (builtTable_catchAll_pattern g kv hkv).2 hp with h3 | h3
    · rw [h1] at h3
      injection h3 with h3
      exact hne h3
    · rw [h1] at h3
      cases h3
  unfold latency
  rw [h]
  simp [hp]

/-! ## The claims -/

/-- C1: the wallet gate of `BuildHandler` is all-or-nothing. For every reactor
state for which the route mux is built: if the wallet, its `AccountMgr` and its
`AssetReg` are all non-nil, every one of the 18 wallet-dependent paths is
registered on the route mux, each with the handler of its own operation; if any
of the three is nil, none of them is; so no state registers some of them and
not all. The 18 paths are exactly those of
lines 50-70. -/
theorem wallet_gate_all_or_nothing (env : Env) (bcr : BlockchainReactor)
    (m : ServeMux JsonHandler) (h : routeTable env bcr = .ok m) :
    (walletGatedPaths.length = 18 ∧ walletRoutes.map (fun r => r.1) = walletGatedPaths) ∧
    ((∃ wallet mgr reg, bcr.wallet = some wallet ∧ wallet.AccountMgr = some mgr ∧
        wallet.AssetReg = some reg) →
      (∀ p ∈ walletGatedPaths, m.isExplicit p = true) ∧
      (∀ rt ∈ walletRoutes, mapGet m.m rt.1 = some ⟨true, .handler ⟨rt.2⟩, rt.1⟩)) ∧
    ((bcr.wallet = none ∨ ∃ wallet, bcr.wallet = some wallet ∧
        (wallet.AccountMgr = none ∨ wallet.AssetReg = none)) →
      ∀ p ∈ walletGatedPaths, m.isExplicit p = false) ∧
    ((∀ p ∈ walletGatedPaths, m.isExplicit p = true) ∨
      (∀ p ∈ walletGatedPaths, m.isExplicit p = false)) := by
  have hm := routeTable_eq_builtTable h
  subst hm
  refine ⟨⟨rfl, rfl⟩, ?_, ?_, ?_⟩
  · intro hw
    rw [(walletGate_true_iff bcr).mpr hw]
    exact ⟨builtTable_gated_on, fun rt hrt => (builtTable_wallet_on rt hrt).2⟩
  · intro hw
    rw [(walletGate_false_iff bcr).mpr hw]
    intro p hp
    exact (builtTable_wallet_off p hp).1
  · cases hg : walletGate bcr
    · right
      intro p hp
      exact (builtTable_wallet_off p hp).1
    · left
      exact builtTable_gated_on

/-- Witness of C1: a reactor with wallet, account manager and asset registry
present, built with adaptations that all succeed. -/
theorem wallet_gate_all_or_nothing_witness :
    routeTable env0 bcrOn = .ok (builtTable true) ∧
      ∀ p ∈ walletGatedPaths, (builtTable true).isExplicit p = true :=
  ⟨rfl, ((wallet_gate_all_or_nothing env0 bcrOn (builtTable true) rfl).2.1
    ⟨⟨some ⟨0⟩, some ⟨0⟩⟩, ⟨0⟩, ⟨0⟩, rfl, rfl, rfl⟩).1⟩

/-- C9: paths are unique within the registry. For both outcomes of the wallet
gate, the sequence of paths `BuildHandler` registers on the route mux (the 18
wallet paths when the gate passes, then `/`, then the 30 always-registered
paths) contains no path twice; building the route mux therefore never panics
with a failure of the mux (such as a multiple registration): it fails only with
an error of `httpjson.Handler`, and succeeds when there is none, the registered
patterns then being exactly that sequence. -/
theorem registered_paths_unique (bcr : BlockchainReactor) :
    (registeredPaths bcr).Nodup ∧
    (registeredPaths bcr).length = (if walletGate bcr then 18 else 0) + 1 + 30 ∧
    (∀ (env : Env) (text : String), routeTable env bcr ≠ .error (.text text)) ∧
    (∀ env : Env, (∀ f, env.httpjson f = none) →
      ∃ m, routeTable env bcr = .ok m ∧
        (m.m.filter (fun kv => kv.2.explicit)).map (fun kv => kv.1) = registeredPaths bcr) := by
  refine ⟨registeredPaths_nodup bcr, ?_, ?_, ?_⟩
  · unfold registeredPaths
    cases walletGate bcr <;> rfl
  · intro env text habs
    rcases routeTable_cases env bcr with h | ⟨err, h⟩
    · rw [h] at habs; cases habs
    · rw [h] at habs; cases habs
  · intro env ha
    refine ⟨_, routeTable_of_adapts ha bcr, ?_⟩
    rw [builtTable_order]
    rfl

/-- Witness of C9: the reactor with wallet, every adaptation succeeding. -/
theorem registered_paths_unique_witness :
    ∃ m, routeTable env0 bcrOn = .ok m ∧
      (m.m.filter (fun kv => kv.2.explicit)).map (fun kv => kv.1) = registeredPaths bcrOn :=
  (registered_paths_unique bcrOn).2.2.2 env0 (fun _ => rfl)

/-- C5: for every request passed to the latency handler built in
`BuildHandler`, whatever the handlers and their outcomes, the request is
dispatched to the route mux exactly once: the new events hold the one answer of
`m.ServeHTTP` to the request, once, and no other answer. A latency sample is
recorded exactly once, on the recorder returned and after the answer, when the
latency lookup returns a recorder, and none when it returns none. With the
lookup of the spec, on the route mux `BuildHandler` builds, a request that
falls to the catch-all records no sample, and a request dispatched to the
handler of a known route records exactly one, against the path of that route. -/
theorem latency_recorded_once (env : Env) (h : LatencyHandler) (r : Request) (w : World) :
    ∃ e d es,
      (∀ w0 : World, ServeMux.ServeHTTP (JsonHandler.ServeHTTP env) h.m r w0 =
        ⟨w0.clock + d, w0.trace ++ [e]⟩) ∧
      e.isAnswer = true ∧
      h.ServeHTTP env r w = ⟨w.clock + d, w.trace ++ es⟩ ∧
      es.countP Event.isDispatch = 1 ∧
      es.countP Event.isAnswer = 1 ∧ e ∈ es ∧
      (∀ l, env.latency h.m r = some l →
        es = [.timeNow w.clock, .routeTable r, e, .recordSince l w.clock d] ∧
          es.countP Event.isRecord = 1) ∧
      (env.latency h.m r = none →
        es = [.routeTable r, e] ∧ es.countP Event.isRecord = 0) ∧
      (∀ bcr : BlockchainReactor, env.latency = latency → routeTable env bcr = .ok h.m →
        ((h.m.Handler r).1 = .handler catchAll → es.countP Event.isRecord = 0) ∧
        (∀ (hd : JsonHandler) (p : String), h.m.Handler r = (.handler hd, p) → hd ≠ catchAll →
          es.countP Event.isRecord = 1 ∧ Event.recordSince ⟨p⟩ w.clock d ∈ es)) := by
  have d1 : ∀ t, Event.isDispatch (.timeNow t) = false := fun _ => rfl
  have d2 : Event.isDispatch (.routeTable r) = true := rfl
  have d3 : ∀ l a b, Event.isDispatch (.recordSince l a b) = false := fun _ _ _ => rfl
  have r1 : ∀ t, Event.isRecord (.timeNow t) = false := fun _ => rfl
  have r2 : Event.isRecord (.routeTable r) = false := rfl
  have r3 : ∀ l a b, Event.isRecord (.recordSince l a b) = true := fun _ _ _ => rfl
  have a1 : ∀ t, Event.isAnswer (.timeNow t) = false := fun _ => rfl
  have a2 : Event.isAnswer (.routeTable r) = false := rfl
  have a3 : ∀ l a b, Event.isAnswer (.recordSince l a b) = false := fun _ _ _ => rfl
  obtain ⟨e, d, he1, he2, he3, he⟩ := routeServe_answer env h.m r
  cases hl : env.latency h.m r with
  | some l =>
    have hserve : h.ServeHTTP env r w =
        ⟨w.clock + d, w.trace ++ [.timeNow w.clock, .routeTable r, e,
          .recordSince l w.clock d]⟩ := by
      unfold LatencyHandler.ServeHTTP
      rw [hl]
      simp only
      rw [he]
      simp [World.emit]
    have hrec : [Event.timeNow w.clock, .routeTable r, e,
        .recordSince l w.clock d].countP Event.isRecord = 1 := by
      simp [List.countP_cons, he2, r1, r2, r3]
    refine ⟨e, d, [.timeNow w.clock, .routeTable r, e, .recordSince l w.clock d],
      he, he1, hserve, ?_, ?_, by simp, ?_, ?_, ?_⟩
    · simp [List.countP_cons, he3, d1, d2, d3]
    · simp [List.countP_cons, he1, a1, a2, a3]
    · intro l1 hl1
      injection hl1 with hl1
      subst hl1
      exact ⟨rfl, hrec⟩
    · intro habs; cases habs
    · intro bcr hlat hm
      have hmb := routeTable_eq_builtTable hm
      rw [hlat] at hl
      constructor
      · intro hc
        rw [hmb] at hc hl
        rw [latency_catchAll _ r hc] at hl
        cases hl
      · intro hd p hH hne
        rw [hmb] at hH hl
        rw [latency_known _ r hd p hH hne] at hl
        injection hl with hl
        subst hl
        exact ⟨hrec, by simp⟩
  | none =>
    have hserve : h.ServeHTTP env r w = ⟨w.clock + d, w.trace ++ [.routeTable r, e]⟩ := by
      unfold LatencyHandler.ServeHTTP
      rw [hl]
      simp only
      rw [he]
      simp [World.emit]
    have hrec : [Event.routeTable r, e].countP Event.isRecord = 0 := by
      simp [List.countP_cons, he2, r2]
    refine ⟨e, d, [.routeTable r, e], he, he1, hserve, ?_, ?_, by simp, ?_, ?_, ?_⟩
    · simp [List.countP_cons, he3, d2]
    · simp [List.countP_cons, he1, a2]
    · intro l habs; cases habs
    · intro _; exact ⟨rfl, hrec⟩
    · intro bcr hlat hm
      have hmb := routeTable_eq_builtTable hm
      rw [hlat] at hl
      constructor
      · intro _; exact hrec
      · intro hd p hH hne
        rw [hmb] at hH hl
        rw [latency_known _ r hd p hH hne] at hl
        cases hl

/-- Witness of C5: on the route mux of a reactor with wallet and with the
lookup of the spec, a request to `/no-such-route` falls to the catch-all and
records no sample. -/
theorem latency_recorded_once_witness :
    ((builtTable true).Handler reqUnknown).1 = .handler catchAll ∧
    ∃ es d, LatencyHandler.ServeHTTP envSpec ⟨builtTable true⟩ reqUnknown ⟨0, []⟩ =
        ⟨0 + d, [] ++ es⟩ ∧
      es.countP Event.isAnswer = 1 ∧ es.countP Event.isRecord = 0 := by
  have hc : ((builtTable true).Handler reqUnknown).1 = .handler catchAll := by decide
  obtain ⟨e, d, es, _, _, h3, _, h5, _, _, _, h9⟩ :=
    latency_recorded_once envSpec ⟨builtTable true⟩ reqUnknown ⟨0, []⟩
  exact ⟨hc, es, d, h3, h5, (h9 bcrOn rfl rfl).1 hc⟩

/-- C10: for a request that matches a known route (the latency lookup returns a
recorder), the latency handler reads the clock, then dispatches to the route
mux, whose handler runs and returns, and only then records the sample: the new
events are, in this order, the clock reading, the dispatch, the event of the
handler, the sample. The sample starts at the clock read before the dispatch
and its elapsed time is all the time that has passed when the handler returned;
when the request is dispatched to a JSON handler that is the whole cost of
serving it, decoding and encoding included. -/
theorem latency_span_covers_handler (env : Env) (h : LatencyHandler) (r : Request) (w : World)
    (l : RotatingLatency) (hl : env.latency h.m r = some l) :
    ∃ e d,
      ServeMux.ServeHTTP (JsonHandler.ServeHTTP env) h.m r
          ((w.emit (.timeNow w.clock)).emit (.routeTable r)) =
        ⟨w.clock + d, w.trace ++ [.timeNow w.clock, .routeTable r, e]⟩ ∧
      h.ServeHTTP env r w =
        ⟨w.clock + d,
          w.trace ++ [.timeNow w.clock, .routeTable r, e, .recordSince l w.clock d]⟩ ∧
      e.isRecord = false ∧ e.isDispatch = false ∧
      (∀ f, r.RequestURI ≠ "*" → (h.m.Handler r).1 = .handler ⟨f⟩ →
        e = .httpjson f r (f.call env r) ∧ d = env.cost f r) := by
  obtain ⟨e, d, he, h1, h2, h3⟩ := routeServe_event env h.m r
    ((w.emit (.timeNow w.clock)).emit (.routeTable r))
  refine ⟨e, d, ?_, ?_, h1, h2, h3⟩
  · rw [he]; simp [World.emit]
  · unfold LatencyHandler.ServeHTTP
    rw [hl]
    simp only
    rw [he]
    simp [World.emit]

/-- Witness of C10: a request to `/info` with a recorder. -/
theorem latency_span_covers_handler_witness :
    LatencyHandler.ServeHTTP envTimed ⟨builtTable true⟩ reqInfo ⟨5, []⟩ =
      ⟨6, [.timeNow 5, .routeTable reqInfo, .httpjson (.method "info") reqInfo none,
        .recordSince ⟨"/info"⟩ 5 1]⟩ := by
  obtain ⟨e, d, _, h2, _, _, h5⟩ :=
    latency_span_covers_handler envTimed ⟨builtTable true⟩ reqInfo ⟨5, []⟩ ⟨"/info"⟩ rfl
  obtain ⟨he, hd⟩ := h5 (.method "info") (by decide) (by decide)
  rw [h2, he, hd]
  rfl

/-- C6: `AuthHandler` is a decision gate. For every request: if the
authenticator returns an error, the wrapped handler is not invoked (the outcome
is the same for every wrapped handler), the cause is logged and exactly one
error is written to the response, whose root is the not-authenticated error;
if the authenticator succeeds, the outcome is exactly that of one invocation of
the wrapped handler on the request returned by the authenticator, from the same
world: `AuthHandler` writes nothing of its own. -/
theorem AuthHandler_gate (env : Env) (handler : Serve) (accessTokens : CredentialStore)
    (r : Request) (w : World) :
    (∀ r1 err, env.Authenticate accessTokens r = (r1, some err) →
      AuthHandler env handler accessTokens r w =
          ⟨w.clock, w.trace ++ [.logError "Authenticate fail" (errors.Wrap err "Serve"),
            .errorWrite r1.Context (errors.Sub errNotAuthenticated err)]⟩ ∧
        (∀ handler1 : Serve,
          AuthHandler env handler1 accessTokens r w = AuthHandler env handler accessTokens r w) ∧
        (((AuthHandler env handler accessTokens r w).trace.drop w.trace.length).countP
          Event.isErrorWrite = 1) ∧
        errors.Root (errors.Sub errNotAuthenticated err) = errNotAuthenticated) ∧
    (∀ r1, env.Authenticate accessTokens r = (r1, none) →
      AuthHandler env handler accessTokens r w = handler r1 w) := by
  constructor
  · intro r1 err ha
    have key : ∀ hd : Serve, AuthHandler env hd accessTokens r w =
        ⟨w.clock, w.trace ++ [.logError "Authenticate fail" (errors.Wrap err "Serve"),
          .errorWrite r1.Context (errors.Sub errNotAuthenticated err)]⟩ := by
      intro hd
      unfold AuthHandler
      rw [ha]
      simp [World.emit]
    refine ⟨key handler, ?_, ?_, rfl⟩
    · intro handler1
      rw [key handler1, key handler]
    · rw [key handler]
      simp only [List.drop_left]
      rfl
  · intro r1 ha
    unfold AuthHandler
    rw [ha]

/-- Witness of C6: an authenticator that rejects every request, in front of a
handler that would answer. -/
theorem AuthHandler_gate_witness :
    AuthHandler envDeny (fun _ w => w.emit .notFound) ⟨[]⟩ reqInfo ⟨0, []⟩ =
      ⟨0, [.logError "Authenticate fail" (errors.Wrap (errors.New "token revoked") "Serve"),
        .errorWrite [] (errors.Sub errNotAuthenticated (errors.New "token revoked"))]⟩ :=
  ((AuthHandler_gate envDeny (fun _ w => w.emit .notFound) ⟨[]⟩ reqInfo ⟨0, []⟩).1
    reqInfo (errors.New "token revoked") rfl).1

/-- C7: the kind of the error `AuthHandler` writes on an authentication failure
does not depend on the cause. For any two authenticator errors, the errors
written, `errors.Sub(errNotAuthenticated, e1)` and
`errors.Sub(errNotAuthenticated, e2)`, both have `errNotAuthenticated` as their
root and reach the caller as the same normalized error, that of
`errNotAuthenticated`; what `AuthHandler` puts on the wire for cause `e1` is
that normalized error alone, while the log keeps the cause. -/
theorem auth_failure_kind_is_generic (e1 e2 : GoError) :
    errors.Root (errors.Sub errNotAuthenticated e1) = errNotAuthenticated ∧
    errors.Root (errors.Sub errNotAuthenticated e2) = errNotAuthenticated ∧
    errorFormatter.Format (errors.Sub errNotAuthenticated e1) =
      errorFormatter.Format (errors.Sub errNotAuthenticated e2) ∧
    (∀ (env : Env) (handler : Serve) (accessTokens : CredentialStore) (r r1 : Request)
        (w : World), env.Authenticate accessTokens r = (r1, some e1) →
      ((AuthHandler env handler accessTokens r w).trace.drop w.trace.length).filterMap
          Event.wire = [errorFormatter.Format errNotAuthenticated] ∧
        Event.logError "Authenticate fail" (errors.Wrap e1 "Serve") ∈
          (AuthHandler env handler accessTokens r w).trace) := by
  refine ⟨rfl, rfl, rfl, ?_⟩
  intro env handler accessTokens r r1 w ha
  have key : AuthHandler env handler accessTokens r w =
      ⟨w.clock, w.trace ++ [.logError "Authenticate fail" (errors.Wrap e1 "Serve"),
        .errorWrite r1.Context (errors.Sub errNotAuthenticated e1)]⟩ := by
    unfold AuthHandler
    rw [ha]
    simp [World.emit]
  rw [key]
  constructor
  · simp only [List.drop_left]
    rfl
  · simp

/-- Witness of C7: the cause "token revoked". -/
theorem auth_failure_kind_is_generic_witness :
    ((AuthHandler envDeny (fun _ w => w) ⟨[]⟩ reqInfo ⟨0, []⟩).trace.drop 0).filterMap
        Event.wire = [⟨"not authenticated", "not authenticated"⟩] :=
  ((auth_failure_kind_is_generic (errors.New "token revoked") (errors.New "expired")).2.2.2
    envDeny (fun _ w => w) ⟨[]⟩ reqInfo reqInfo ⟨0, []⟩ rfl).1

/-- The handler built by `BuildHandler` hands a request with a canonical path
that is neither `/dashboard` nor under `/dashboard/` to `maxBytes(latencyHandler)`. -/
theorem serve_next {env : Env} {bcr bcr1 : BlockchainReactor} (r : Request) (w : World)
    (h : BuildHandler env bcr = .ok bcr1) (hu : r.RequestURI ≠ "*")
    (hc : cleanPath r.Path = r.Path) (hs : HasPrefix r.Path "/dashboard/" = false)
    (hd : r.Path ≠ "/dashboard") :
    ∃ m, routeTable env bcr = .ok m ∧
      bcr1.ServeHTTP env r w = env.maxBytes (LatencyHandler.ServeHTTP env ⟨m⟩) r w := by
  obtain ⟨m, hm, hb⟩ := BuildHandler_ok h
  refine ⟨m, hm, ?_⟩
  subst hb
  unfold BlockchainReactor.ServeHTTP ServeMux.ServeHTTP
  simp only [hu, if_false]
  rw [webMux_Handler _ r hc _ _ (webMux_match_next _ r.Path (canonical_rooted hc) hs hd)]
  rfl

/-- Counterexample to C3: `//nope` is not in the route enumeration and does
not lie under `/dashboard/`, yet a request for it is answered by a redirect to
`/nope` and by no not-found error; likewise a request for `/dashboard` is
answered by a redirect to `/dashboard/`, and a request whose target is `*` by
a bad-request status. -/
theorem unknown_path_redirected :
    "//nope" ∉ enumeratedPaths ∧ HasPrefix "//nope" "/dashboard/" = false ∧
    "/dashboard" ∉ enumeratedPaths ∧ "*" ∉ enumeratedPaths ∧
    ∃ bcr1, BuildHandler env0 bcrOn = .ok bcr1 ∧
      bcr1.ServeHTTP env0 reqNope ⟨0, []⟩ = ⟨0, [.redirect "/nope" 301]⟩ ∧
      bcr1.ServeHTTP env0 reqDashboard ⟨0, []⟩ = ⟨0, [.redirect "/dashboard/" 301]⟩ ∧
      bcr1.ServeHTTP env0 reqStar ⟨0, []⟩ = ⟨0, [.badRequest]⟩ := by
  refine ⟨by decide, by decide, by decide, by decide,
    { bcrOn with Handler := some (webMux ⟨⟨builtTable true⟩⟩) }, rfl, ?_, ?_, ?_⟩ <;>
    decide

/-- C3, amended: for any path in canonical form that is not in the route
enumeration, is not `/dashboard` and does not lie under `/dashboard/`, every
request (whose target is not `*`) to the handler built by `BuildHandler`,
whatever its method and body, is handed unmodified to
`maxBytes(latencyHandler)`, and the route mux dispatches it to
`alwaysError(errors.New("not Found"))`: serving it there is one invocation of
that operation, which fails with the not-found error, as it does for every
invocation. -/
theorem unknown_canonical_path_not_found (env : Env) (bcr bcr1 : BlockchainReactor)
    (r : Request) (w : World) (h : BuildHandler env bcr = .ok bcr1)
    (hu : r.RequestURI ≠ "*") (hc : cleanPath r.Path = r.Path)
    (hp : r.Path ∉ enumeratedPaths) (hd : r.Path ≠ "/dashboard")
    (hs : HasPrefix r.Path "/dashboard/" = false) :
    ∃ m, routeTable env bcr = .ok m ∧
      bcr1.ServeHTTP env r w = env.maxBytes (LatencyHandler.ServeHTTP env ⟨m⟩) r w ∧
      m.Handler r = (.handler catchAll, "/") ∧
      (∀ w1 : World, ServeMux.ServeHTTP (JsonHandler.ServeHTTP env) m r w1 =
        ⟨w1.clock + env.cost catchAll.f r,
          w1.trace ++ [.httpjson catchAll.f r (some (errors.New "not Found"))]⟩) ∧
      (∀ r1 : Request, catchAll.f.call env r1 = some (errors.New "not Found")) := by
  obtain ⟨m, hm, hserve⟩ := serve_next r w h hu hc hs hd
  have hmb := routeTable_eq_builtTable hm
  have hnot : r.Path ∉ operationPaths (walletGate bcr) := by
    intro hmem
    apply hp
    unfold operationPaths at hmem
    unfold enumeratedPaths
    cases hg : walletGate bcr
    · rw [hg] at hmem
      simp only [Bool.false_eq_true, if_false, List.nil_append] at hmem
      exact List.mem_append_right _ hmem
    · rw [hg] at hmem
      simpa using hmem
  have hH : m.Handler r = (.handler catchAll, "/") := by
    rw [hmb]
    exact builtTable_Handler _ r hc _ _
      (builtTable_match_other _ r.Path (canonical_rooted hc) hnot)
  refine ⟨m, hm, hserve, hH, ?_, fun _ => rfl⟩
  intro w1
  unfold ServeMux.ServeHTTP
  simp only [hu, if_false, hH]
  rfl

/-- Witness of C3, amended: `/no-such-route` on the reactor with wallet. -/
theorem unknown_canonical_path_not_found_witness :
    ∃ m, routeTable env0 bcrOn = .ok m ∧ m.Handler reqUnknown = (.handler catchAll, "/") := by
  obtain ⟨m, h1, _, h3, _⟩ := unknown_canonical_path_not_found env0 bcrOn
    { bcrOn with Handler := some (webMux ⟨⟨builtTable true⟩⟩) } reqUnknown ⟨0, []⟩ rfl
    (by decide) (by decide) (by decide) (by decide) (by decide)
  exact ⟨m, h1, h3⟩

/-- Counterexample to C8: the path `/dashboard/../info` lies under the prefix
`/dashboard/`, yet the request is not served by the static asset handler but
answered by a redirect to `/info`; the path of the request for
`/dashboard%2Fapp.js` lies under the prefix, yet the request is answered
not-found, its escaped path not starting with the prefix; the path `/dashboard`
does not lie under the prefix, yet the request does not reach the body-size
limiter but is answered by a redirect to `/dashboard/`; nor does a request whose
target is `*`, which is answered by a bad-request status. -/
theorem prefix_routing_redirects :
    ∃ bcr1, BuildHandler env0 bcrOn = .ok bcr1 ∧
      HasPrefix reqDotDot.Path "/dashboard/" = true ∧
      bcr1.ServeHTTP env0 reqDotDot ⟨0, []⟩ = ⟨0, [.redirect "/info" 301]⟩ ∧
      HasPrefix reqEscaped.Path "/dashboard/" = true ∧
      bcr1.ServeHTTP env0 reqEscaped ⟨0, []⟩ = ⟨0, [.notFound]⟩ ∧
      HasPrefix reqDashboard.Path "/dashboard/" = false ∧
      bcr1.ServeHTTP env0 reqDashboard ⟨0, []⟩ = ⟨0, [.redirect "/dashboard/" 301]⟩ ∧
      HasPrefix reqStar.Path "/dashboard/" = false ∧
      bcr1.ServeHTTP env0 reqStar ⟨0, []⟩ = ⟨0, [.badRequest]⟩ := by
  refine ⟨{ bcrOn with Handler := some (webMux ⟨⟨builtTable true⟩⟩) }, rfl,
    ?_, ?_, ?_, ?_, ?_, ?_, ?_, ?_⟩ <;> decide

/-- C8, amended: the handler stored in `bcr.Handler` routes requests whose path
is in canonical form (and whose target is not `*`) by path prefix, in the
specified composition order. Every such request whose path is under
`/dashboard/` stops at the static asset layer and reaches neither the body-size
limiter nor the latency handler nor the route mux: when its escaped path is
unset or is under `/dashboard/` too, it is served by the static asset handler
with default document `index.html`, on the path and the escaped path with the
prefix stripped, and that is all that happens; when its escaped path is set and
not under `/dashboard/`, it is answered not-found, and that is all that
happens. Every such request whose path is neither under `/dashboard/` nor
`/dashboard` itself is handed unmodified to the body-size limiter, which wraps
the latency handler, which wraps the route mux. -/
theorem canonical_requests_by_subtree (env : Env) (bcr bcr1 : BlockchainReactor)
    (r : Request) (w : World) (h : BuildHandler env bcr = .ok bcr1)
    (hu : r.RequestURI ≠ "*") (hc : cleanPath r.Path = r.Path) :
    (HasPrefix r.Path "/dashboard/" = true →
      (r.RawPath = "" ∨ HasPrefix r.RawPath "/dashboard/" = true) →
      bcr1.ServeHTTP env r w =
        ⟨w.clock, w.trace ++
          [.static "index.html" { r with Path := TrimPrefix r.Path "/dashboard/",
                                         RawPath := TrimPrefix r.RawPath "/dashboard/" }]⟩) ∧
    (HasPrefix r.Path "/dashboard/" = true →
      r.RawPath ≠ "" → HasPrefix r.RawPath "/dashboard/" = false →
      bcr1.ServeHTTP env r w = ⟨w.clock, w.trace ++ [.notFound]⟩) ∧
    (HasPrefix r.Path "/dashboard/" = false → r.Path ≠ "/dashboard" →
      ∃ m, routeTable env bcr = .ok m ∧
        bcr1.Handler = some (webMux ⟨⟨m⟩⟩) ∧
        bcr1.ServeHTTP env r w = MaxBytesHandler.ServeHTTP env ⟨⟨m⟩⟩ r w ∧
        MaxBytesHandler.ServeHTTP env ⟨⟨m⟩⟩ r w =
          env.maxBytes (LatencyHandler.ServeHTTP env ⟨m⟩) r w) := by
  have h1 : ("/dashboard/" : String) ≠ "" := by decide
  have hstatic : HasPrefix r.Path "/dashboard/" = true →
      bcr1.ServeHTTP env r w =
        WebHandler.ServeHTTP env (.StripPrefix "/dashboard/" ⟨"index.html"⟩) r w := by
    intro hs
    obtain ⟨m, hm, hb⟩ := BuildHandler_ok h
    subst hb
    unfold BlockchainReactor.ServeHTTP ServeMux.ServeHTTP
    simp only [hu, if_false]
    rw [webMux_Handler _ r hc _ _ (webMux_match_static _ r.Path hs)]
    rfl
  refine ⟨?_, ?_, ?_⟩
  · intro hs hraw
    rw [hstatic hs]
    simp only [WebHandler.ServeHTTP, h1, if_false, TrimPrefix_shorter hs h1, true_and]
    have hcond : r.RawPath = "" ∨
        (TrimPrefix r.RawPath "/dashboard/").length < r.RawPath.length := by
      rcases hraw with h0 | h0
      · left; exact h0
      · right; exact TrimPrefix_shorter h0 h1
    rw [if_pos hcond]
    rfl
  · intro hs hne hraw
    rw [hstatic hs]
    simp only [WebHandler.ServeHTTP, h1, if_false, TrimPrefix_shorter hs h1, true_and]
    have hcond : ¬ (r.RawPath = "" ∨
        (TrimPrefix r.RawPath "/dashboard/").length < r.RawPath.length) := by
      rintro (h0 | h0)
      · exact hne h0
      · rw [TrimPrefix_same hraw] at h0
        exact Nat.lt_irrefl _ h0
    rw [if_neg hcond]
    rfl
  · intro hs hd
    obtain ⟨m, hm, hserve⟩ := serve_next r w h hu hc hs hd
    obtain ⟨m1, hm1, hb⟩ := BuildHandler_ok h
    rw [hm] at hm1
    injection hm1 with hm1
    subst hm1
    refine ⟨m, hm, ?_, hserve, rfl⟩
    rw [hb]

/-- Witness of C8, amended: a file of the dashboard. -/
theorem canonical_requests_by_subtree_witness :
    BlockchainReactor.ServeHTTP env0 { bcrOn with Handler := some (webMux ⟨⟨builtTable true⟩⟩) }
        reqAsset ⟨0, []⟩ =
      ⟨0, [.static "index.html" { reqAsset with Path := "app.js" }]⟩ :=
  (canonical_requests_by_subtree env0 bcrOn
    { bcrOn with Handler := some (webMux ⟨⟨builtTable true⟩⟩) } reqAsset ⟨0, []⟩ rfl
    (by decide) (by decide)).1 (by decide) (by decide)

end RpcReactor
